import Mathlib

/-!
Verification development for the bookforge EPUB library.

The Rust sources are shallowly embedded: each event-driven XML parser is a
fold over a list of already-lexed XML events (element names are the local
names quick_xml reports, attributes are association lists, text is already
unescaped), `HashMap` is modelled as an association list with
replace-on-insert semantics and insertion iteration order, `u32` is `Nat`
with an explicit range check where parsing matters, and `Result`/`Option`
become `Except`/`Option`.
-/

/-- An XML event as produced by the quick_xml reader: start element, empty
element, end element, or text.  Element and attribute names carry the local
name; attribute values and text are already unescaped. -/
inductive XmlEvent where
  | start (name : String) (attrs : List (String × String))
  | empty (name : String) (attrs : List (String × String))
  | endE (name : String)
  | text (s : String)
deriving Repr

/-- Attribute scan with assignment semantics: a `for attr in e.attributes()`
loop that assigns on every key match, so the last occurrence wins; `dflt`
when the key never occurs. -/
def attrLast (attrs : List (String × String)) (key : String) (dflt : String) : String :=
  attrs.foldl (fun acc kv => if kv.1 = key then kv.2 else acc) dflt

/-- Attribute scan that assigns `some value` on every key match (last
occurrence wins), `none` when the key never occurs. -/
def attrLastOpt (attrs : List (String × String)) (key : String) : Option String :=
  attrs.foldl (fun acc kv => if kv.1 = key then some kv.2 else acc) none

/-- Rust `str::parse::<u32>().ok()`: an optional leading `+`, then a nonempty
digit string whose value fits in 32 bits (written on the character list so
that it evaluates inside the kernel). -/
def parseU32 (s : String) : Option Nat :=
  let cs := match s.data with
    | '+' :: rest => rest
    | cs => cs
  if cs.isEmpty then none
  else if cs.all Char.isDigit then
    let n := cs.foldl (fun acc c => acc * 10 + (c.toNat - 48)) 0
    if n ≤ 4294967295 then some n else none
  else none

/-- Split a character list at every separator accepted by `p` (the
separators are consumed; empty pieces are kept, as `str::split` and
`Path`-style splitting produce them). -/
def splitOnPred (p : Char → Bool) : List Char → List String
  | [] => [""]
  | c :: rest =>
    match splitOnPred p rest with
    | [] => [""]
    | piece :: pieces =>
      if p c then "" :: piece :: pieces
      else String.mk (c :: piece.data) :: pieces

/-- Join strings with `/` separators. -/
def joinSlash : List String → String
  | [] => ""
  | [x] => x
  | x :: xs => x ++ "/" ++ joinSlash xs

/-- Character-list prefix test. -/
def charsStart : List Char → List Char → Bool
  | [], _ => true
  | _ :: _, [] => false
  | p :: ps, c :: cs => p = c && charsStart ps cs

/-- Rust `str::starts_with`, written on the character lists so that it
evaluates inside the kernel. -/
def strStartsWith (s pre : String) : Bool :=
  charsStart pre.data s.data

/-- Association-list lookup, the model of `HashMap::get`. -/
def assocGet (m : List (String × α)) (k : String) : Option α :=
  (m.find? (fun kv => kv.1 = k)).map (·.2)

/-- `HashMap::insert`: replace the value at an existing key in place, or
append a new binding. -/
def assocInsert (m : List (String × α)) (k : String) (v : α) : List (String × α) :=
  if (m.find? (fun kv => kv.1 = k)).isSome then
    m.map (fun kv => if kv.1 = k then (kv.1, v) else kv)
  else m ++ [(k, v)]

/-- `map.entry(k).or_insert_with(Vec::new).push(v)`: append `v` to the list
at `k`, creating the binding at the end if absent. -/
def assocPush (m : List (String × List α)) (k : String) (v : α) : List (String × List α) :=
  if (m.find? (fun kv => kv.1 = k)).isSome then
    m.map (fun kv => if kv.1 = k then (kv.1, kv.2 ++ [v]) else kv)
  else m ++ [(k, [v])]

/-- The error enum of `epub/error.rs`, restricted to the payloads the claims
need. -/
inductive EpubError where
  | Io
  | Zip
  | InvalidEpub (msg : String)
  | MissingMimetype
  | InvalidMimetype (expected found : String)
  | XmlError
  | ContainerParseError (msg : String)
  | OpfParseError (msg : String)
  | NcxParseError (msg : String)
  | ConfigError (msg : String)
deriving Repr, DecidableEq

/-- `container.rs`: one `<rootfile>` entry. -/
structure RootFile where
  full_path : String
  media_type : String
deriving Repr, DecidableEq

/-- `container.rs`: the parsed container document. -/
structure Container where
  rootfiles : List RootFile
deriving Repr, DecidableEq

/-- One step of the `Container::parse_xml` event loop: state is the
`in_rootfiles` flag and the accumulated rootfile list. -/
def containerStep (st : Bool × List RootFile) (ev : XmlEvent) : Bool × List RootFile :=
  match ev with
  | .start n attrs | .empty n attrs =>
    if n = "rootfiles" then (true, st.2)
    else if n = "rootfile" ∧ st.1 then
      let full_path := attrLast attrs "full-path" ""
      let media_type := attrLast attrs "media-type" ""
      if full_path ≠ "" ∧ media_type ≠ "" then (st.1, st.2 ++ [⟨full_path, media_type⟩])
      else (st.1, st.2)
    else (st.1, st.2)
  | .endE n => (if n = "rootfiles" then false else st.1, st.2)
  | .text _ => (st.1, st.2)

/-- `Container::parse_xml`: scan the events, then fail iff no rootfile entry
was collected. -/
def Container.parse_xml (events : List XmlEvent) : Except EpubError Container :=
  let scanned := events.foldl containerStep (false, [])
  if scanned.2.isEmpty then
    .error (.ContainerParseError "no rootfile entry found")
  else
    .ok ⟨scanned.2⟩

/-- The package media type literal used by `get_opf_path`. -/
def opfMediaType : String := "application/oebps-package+xml"

/-- `Container::get_opf_path`: first entry with the package media type, else
the first entry, else none. -/
def Container.get_opf_path (c : Container) : Option String :=
  match c.rootfiles.find? (fun rf => rf.media_type = opfMediaType) with
  | some rf => some rf.full_path
  | none => c.rootfiles.head?.map (·.full_path)

/-- Declarative description of the well-formed rootfile entries of an event
stream, in source order: a `rootfile` element inside a `rootfiles` section
whose `full-path` and `media-type` attributes are both nonempty. -/
def wellFormedRootfiles : List XmlEvent → Bool → List RootFile
  | [], _ => []
  | ev :: rest, inRf =>
    match ev with
    | .start n attrs | .empty n attrs =>
      if n = "rootfiles" then wellFormedRootfiles rest true
      else if n = "rootfile" ∧ inRf then
        let full_path := attrLast attrs "full-path" ""
        let media_type := attrLast attrs "media-type" ""
        if full_path ≠ "" ∧ media_type ≠ "" then
          ⟨full_path, media_type⟩ :: wellFormedRootfiles rest inRf
        else wellFormedRootfiles rest inRf
      else wellFormedRootfiles rest inRf
    | .endE n => wellFormedRootfiles rest (if n = "rootfiles" then false else inRf)
    | .text _ => wellFormedRootfiles rest inRf

theorem containerStep_foldl (events : List XmlEvent) :
    ∀ (inRf : Bool) (acc : List RootFile),
      (events.foldl containerStep (inRf, acc)).2 = acc ++ wellFormedRootfiles events inRf := by
  induction events with
  | nil => intro inRf acc; simp [wellFormedRootfiles]
  | cons ev rest ih =>
    intro inRf acc
    cases ev with
    | start n attrs =>
      by_cases h1 : n = "rootfiles"
      · simp [containerStep, wellFormedRootfiles, h1, ih]
      · by_cases h2 : n = "rootfile" ∧ inRf
        · by_cases h3 : attrLast attrs "full-path" "" ≠ "" ∧ attrLast attrs "media-type" "" ≠ ""
          · simp [containerStep, wellFormedRootfiles, h1, h2, h3, ih]
          · simp [containerStep, wellFormedRootfiles, h1, h2, h3, ih]
        · simp [containerStep, wellFormedRootfiles, h1, h2, ih]
    | empty n attrs =>
      by_cases h1 : n = "rootfiles"
      · simp [containerStep, wellFormedRootfiles, h1, ih]
      · by_cases h2 : n = "rootfile" ∧ inRf
        · by_cases h3 : attrLast attrs "full-path" "" ≠ "" ∧ attrLast attrs "media-type" "" ≠ ""
          · simp [containerStep, wellFormedRootfiles, h1, h2, h3, ih]
          · simp [containerStep, wellFormedRootfiles, h1, h2, h3, ih]
        · simp [containerStep, wellFormedRootfiles, h1, h2, ih]
    | endE n => simp [containerStep, wellFormedRootfiles, ih]
    | text s => simp [containerStep, wellFormedRootfiles, ih]

theorem find?_eq_head?_filter (p : α → Bool) (l : List α) :
    l.find? p = (l.filter p).head? := by
  induction l with
  | nil => rfl
  | cons a t ih =>
    cases h : p a
    · rw [List.find?_cons_of_neg _ (by simp [h]), List.filter_cons_of_neg (by simp [h]), ih]
    · rw [List.find?_cons_of_pos _ h, List.filter_cons_of_pos h]
      rfl

/-- `opf/config.rs`: tag configuration for one semantic metadata field. -/
structure MetadataTagConfig where
  tags : List String
  description : Option String
deriving Repr, DecidableEq

/-- `opf/config.rs`: the full tag configuration. -/
structure MetadataTagConfigs where
  title : MetadataTagConfig
  creator : MetadataTagConfig
  contributor : MetadataTagConfig
  language : MetadataTagConfig
  identifier : MetadataTagConfig
  publisher : MetadataTagConfig
  date : MetadataTagConfig
  description : MetadataTagConfig
  subject : MetadataTagConfig
  rights : MetadataTagConfig
  cover : MetadataTagConfig
  modified : MetadataTagConfig
deriving Repr, DecidableEq

/-- `MetadataTagConfigs::default_config` (descriptions elided to `none`;
they never influence behaviour). -/
def MetadataTagConfigs.default_config : MetadataTagConfigs where
  title := ⟨["title"], none⟩
  creator := ⟨["creator", "author"], none⟩
  contributor := ⟨["contributor"], none⟩
  language := ⟨["language"], none⟩
  identifier := ⟨["identifier"], none⟩
  publisher := ⟨["publisher"], none⟩
  date := ⟨["date"], none⟩
  description := ⟨["description"], none⟩
  subject := ⟨["subject"], none⟩
  rights := ⟨["rights"], none⟩
  cover := ⟨["cover"], none⟩
  modified := ⟨["dcterms:modified"], none⟩

/-- `opf/metadata.rs`: the three `meta`-tag annotation kinds. -/
inductive MetaValue where
  | NameBased (content : String)
  | PropertyBased (content : String)
  | RefinesBased (refines_id : String) (property : String) (content : String)
      (scheme : Option String)
deriving Repr, DecidableEq

/-- `opf/metadata.rs`: a stored metadata value. -/
inductive MetadataValue where
  | DublinCore (value : String) (attributes : List (String × String))
  | Meta (m : MetaValue)
deriving Repr, DecidableEq

/-- `opf/metadata.rs`: a resolved creator. -/
structure Creator where
  name : String
  role : Option String
  display_seq : Option Nat
  id : Option String
deriving Repr, DecidableEq

/-- `opf/metadata.rs`: the metadata store.  The two `HashMap`s are modelled
as association lists in key-insertion order. -/
structure Metadata where
  raw_metadata : List (String × List MetadataValue)
  refines_metadata : List (String × List MetaValue)
  tag_configs : MetadataTagConfigs
deriving Repr, DecidableEq

/-- `Metadata::new`.  `MetadataTagConfigs::new()` loads `metadata.yaml` when
present and otherwise falls back to `default_config`; the optional external
override file is out of scope, so the default configuration is used. -/
def Metadata.new : Metadata :=
  ⟨[], [], MetadataTagConfigs.default_config⟩

/-- `Metadata::add_dublin_core`. -/
def Metadata.add_dublin_core (md : Metadata) (tag value : String)
    (attributes : List (String × String)) : Metadata :=
  { md with raw_metadata := assocPush md.raw_metadata tag (.DublinCore value attributes) }

/-- `Metadata::add_meta_name_based`. -/
def Metadata.add_meta_name_based (md : Metadata) (name content : String) : Metadata :=
  { md with raw_metadata := assocPush md.raw_metadata name (.Meta (.NameBased content)) }

/-- `Metadata::add_meta_property_based`. -/
def Metadata.add_meta_property_based (md : Metadata) (property content : String) : Metadata :=
  { md with raw_metadata := assocPush md.raw_metadata property (.Meta (.PropertyBased content)) }

/-- `Metadata::add_meta_refines_based`: stored twice, once in the raw map
under `refines-<id>` and once in the refines side table under the id. -/
def Metadata.add_meta_refines_based (md : Metadata) (refines_id property content : String)
    (scheme : Option String) : Metadata :=
  let meta_value : MetaValue := .RefinesBased refines_id property content scheme
  { md with
    raw_metadata :=
      assocPush md.raw_metadata ("refines-" ++ refines_id) (.Meta meta_value),
    refines_metadata := assocPush md.refines_metadata refines_id meta_value }

/-- `Metadata::find_by_tags`: first stored value under the first candidate
tag that has at least one entry. -/
def Metadata.find_by_tags (md : Metadata) : List String → Option MetadataValue
  | [] => none
  | tag :: rest =>
    match assocGet md.raw_metadata tag with
    | some values =>
      match values.head? with
      | some v => some v
      | none => md.find_by_tags rest
    | none => md.find_by_tags rest

/-- `Metadata::find_all_by_tags`: concatenation over the candidate tags in
configuration order, each tag's values in insertion order. -/
def Metadata.find_all_by_tags (md : Metadata) (tags : List String) : List MetadataValue :=
  tags.foldl (fun acc tag => acc ++ ((assocGet md.raw_metadata tag).getD [])) []

/-- `Metadata::extract_content`. -/
def Metadata.extract_content (_md : Metadata) (v : MetadataValue) : Option String :=
  match v with
  | .DublinCore value _ => some value
  | .Meta (.NameBased content) => some content
  | .Meta (.PropertyBased content) => some content
  | .Meta (.RefinesBased _ _ content _) => some content

/-- One iteration of the refines loop in `Metadata::extract_creator`:
a `role` fact overrides the role through the marc relator mapping, a
`display-seq` fact overwrites the display sequence with the parse result. -/
def creatorApplyRefine (c : Creator) (m : MetaValue) : Creator :=
  match m with
  | .RefinesBased _ property content _ =>
    if property = "role" then
      { c with role := some (
          if content = "aut" then "author"
          else if content = "edt" then "editor"
          else if content = "trl" then "translator"
          else if content = "ill" then "illustrator"
          else content) }
    else if property = "display-seq" then
      { c with display_seq := parseU32 content }
    else c
  | _ => c

/-- `Metadata::extract_creator`. -/
def Metadata.extract_creator (md : Metadata) (v : MetadataValue) : Option Creator :=
  match v with
  | .DublinCore value attributes =>
    let creator : Creator :=
      ⟨value, assocGet attributes "role", none, assocGet attributes "id"⟩
    match creator.id with
    | some i =>
      match assocGet md.refines_metadata i with
      | some refines_list => some (refines_list.foldl creatorApplyRefine creator)
      | none => some creator
    | none => some creator
  | .Meta m =>
    let name :=
      match m with
      | .NameBased content => content
      | .PropertyBased content => content
      | .RefinesBased _ _ content _ => content
    some ⟨name, none, none, none⟩

/-- `Metadata::creators`. -/
def Metadata.creators (md : Metadata) : List Creator :=
  (md.find_all_by_tags md.tag_configs.creator.tags).filterMap md.extract_creator

/-- `Metadata::cover`. -/
def Metadata.cover (md : Metadata) : Option String :=
  (md.find_by_tags md.tag_configs.cover.tags).bind md.extract_content

/-- `Metadata::other`: raw tags not claimed by any configured field and not
refines bookkeeping keys (result map modelled in raw-map iteration order). -/
def Metadata.other (md : Metadata) : List (String × String) :=
  let known_tags : List String :=
    md.tag_configs.title.tags ++ md.tag_configs.creator.tags ++
    md.tag_configs.contributor.tags ++ md.tag_configs.language.tags ++
    md.tag_configs.identifier.tags ++ md.tag_configs.publisher.tags ++
    md.tag_configs.date.tags ++ md.tag_configs.description.tags ++
    md.tag_configs.subject.tags ++ md.tag_configs.rights.tags ++
    md.tag_configs.cover.tags ++ md.tag_configs.modified.tags
  md.raw_metadata.foldl (fun acc kv =>
    if ¬ known_tags.contains kv.1 ∧ ¬ strStartsWith kv.1 "refines-" then
      match kv.2.head? with
      | some v =>
        match md.extract_content v with
        | some content => assocInsert acc kv.1 content
        | none => acc
      | none => acc
    else acc) []

/-- Rust `str::split_whitespace`. -/
def splitWhitespace (s : String) : List String :=
  (splitOnPred Char.isWhitespace s.data).filter (· ≠ "")

/-- `opf/manifest.rs`: one manifest item. -/
structure ManifestItem where
  id : String
  href : String
  media_type : String
  properties : Option String
deriving Repr, DecidableEq

/-- `ManifestItem::has_property`: token membership in the
whitespace-separated `properties` attribute. -/
def ManifestItem.has_property (item : ManifestItem) (property : String) : Bool :=
  match item.properties with
  | some properties => (splitWhitespace properties).contains property
  | none => false

/-- `ManifestItem::is_nav`. -/
def ManifestItem.is_nav (item : ManifestItem) : Bool :=
  item.has_property "nav"

/-- `ManifestItem::is_cover_image`. -/
def ManifestItem.is_cover_image (item : ManifestItem) : Bool :=
  item.has_property "cover-image"

/-- `ManifestItem::is_image`. -/
def ManifestItem.is_image (item : ManifestItem) : Bool :=
  strStartsWith item.media_type "image/"

/-- `opf/spine.rs`: one spine item. -/
structure SpineItem where
  idref : String
  linear : Bool
deriving Repr, DecidableEq

/-- `SpineItem::is_linear`. -/
def SpineItem.is_linear (s : SpineItem) : Bool :=
  s.linear

/-- `Opf::parse_spine_item` applied to one `itemref`'s attributes: `linear`
defaults to true and is disabled exactly by the value `"no"`; the item is
appended only when `idref` is nonempty. -/
def parse_spine_item (attrs : List (String × String)) (spine : List SpineItem) :
    List SpineItem :=
  let spine_item := attrs.foldl (fun (si : SpineItem) kv =>
    if kv.1 = "idref" then { si with idref := kv.2 }
    else if kv.1 = "linear" then { si with linear := kv.2 ≠ "no" }
    else si) ⟨"", true⟩
  if spine_item.idref ≠ "" then spine ++ [spine_item] else spine

/-- `Opf::parse_spine_toc`: the first `toc` attribute of the `spine`
element. -/
def parse_spine_toc (attrs : List (String × String)) : Option String :=
  (attrs.find? (fun kv => kv.1 = "toc")).map (·.2)

/-- `Opf::parse_manifest_item` applied to one `item`'s attributes: the item
is inserted (keyed by id) only when id, href and media-type are all
nonempty. -/
def parse_manifest_item (attrs : List (String × String))
    (manifest : List (String × ManifestItem)) : List (String × ManifestItem) :=
  let item := attrs.foldl (fun (it : ManifestItem) kv =>
    if kv.1 = "id" then { it with id := kv.2 }
    else if kv.1 = "href" then { it with href := kv.2 }
    else if kv.1 = "media-type" then { it with media_type := kv.2 }
    else if kv.1 = "properties" then { it with properties := some kv.2 }
    else it) ⟨"", "", "", none⟩
  if item.id ≠ "" ∧ item.href ≠ "" ∧ item.media_type ≠ "" then
    assocInsert manifest item.id item
  else manifest

/-- `opf/parser.rs`: the parsed package document.  The manifest `HashMap`
is modelled as an association list in insertion order. -/
structure Opf where
  version : String
  metadata : Metadata
  manifest : List (String × ManifestItem)
  spine : List SpineItem
  spine_toc : Option String

/-- `Opf::get_manifest_item`. -/
def Opf.get_manifest_item (opf : Opf) (id : String) : Option ManifestItem :=
  assocGet opf.manifest id

/-- `Opf::get_cover_image_path`: first manifest item (in map iteration
order, modelled as insertion order) with the `cover-image` property. -/
def Opf.get_cover_image_path (opf : Opf) : Option String :=
  (opf.manifest.find? (fun kv => kv.2.is_cover_image)).map (·.2.href)

/-- `Opf::get_cover_path`: manifest cover-image item, else the metadata
`cover` field resolved as a manifest id or else taken literally, else the
other-metadata `cover` key with the same resolution, else none. -/
def Opf.get_cover_path (opf : Opf) : Option String :=
  match opf.get_cover_image_path with
  | some path => some path
  | none =>
    match opf.metadata.cover with
    | some cover =>
      match assocGet opf.manifest cover with
      | some item => some item.href
      | none => some cover
    | none =>
      match assocGet opf.metadata.other "cover" with
      | some cover_id =>
        match assocGet opf.manifest cover_id with
        | some item => some item.href
        | none => some cover_id
      | none => none

/-- `Opf::get_chapter_paths`: hrefs of the manifest items referenced by the
linear spine entries, in spine order; unresolvable idrefs are skipped. -/
def Opf.get_chapter_paths (opf : Opf) : List String :=
  (((opf.spine.filter (fun si => si.is_linear)).filterMap
      (fun si => assocGet opf.manifest si.idref)).map (·.href))

/-- `ncx/navigation.rs`: a navigation label. -/
structure NavLabel where
  text : String
deriving Repr, DecidableEq

/-- `ncx/navigation.rs`: a content reference. -/
structure NavContent where
  src : String
deriving Repr, DecidableEq

/-- `ncx/navigation.rs`: a navigation point (`class` is `cls`, a reserved
word in Lean). -/
inductive NavPoint where
  | mk (id : String) (play_order : Nat) (cls : Option String) (nav_label : NavLabel)
      (content : NavContent) (children : List NavPoint)
deriving Repr

def NavPoint.id : NavPoint → String
  | .mk i _ _ _ _ _ => i

def NavPoint.play_order : NavPoint → Nat
  | .mk _ po _ _ _ _ => po

def NavPoint.cls : NavPoint → Option String
  | .mk _ _ c _ _ _ => c

def NavPoint.nav_label : NavPoint → NavLabel
  | .mk _ _ _ l _ _ => l

def NavPoint.content : NavPoint → NavContent
  | .mk _ _ _ _ c _ => c

def NavPoint.children : NavPoint → List NavPoint
  | .mk _ _ _ _ _ c => c

/-- The comparison `a.play_order.cmp(&b.play_order)` used by the sorts. -/
def navPointLe (a b : NavPoint) : Prop :=
  a.play_order ≤ b.play_order

instance : DecidableRel navPointLe :=
  fun a b => Nat.decLe a.play_order b.play_order

instance : IsTotal NavPoint navPointLe :=
  ⟨fun a b => Nat.le_total a.play_order b.play_order⟩

instance : IsTrans NavPoint navPointLe :=
  ⟨fun _ _ _ h1 h2 => Nat.le_trans h1 h2⟩

/-- `NavPoint::sort_children_by_play_order`: stable-sort the children by
playOrder (Rust `Vec::sort_by` is stable; a stable sort by a key is
extensionally unique, embedded as insertion sort), then recurse into each
child. -/
def NavPoint.sort_children_by_play_order : NavPoint → NavPoint
  | .mk i po cls lbl ct children =>
    .mk i po cls lbl ct
      ((List.insertionSort navPointLe children).attach.map
        (fun c => NavPoint.sort_children_by_play_order c.1))
termination_by p => sizeOf p
decreasing_by
  have hmem := (List.perm_insertionSort navPointLe _).mem_iff.mp c.2
  have h2 := List.sizeOf_lt_of_mem hmem
  simp only [NavPoint.mk.sizeOf_spec]
  omega

/-- `ncx/navigation.rs`: the navigation map. -/
structure NavMap where
  nav_points : List NavPoint
deriving Repr

/-- `NavMap::add_nav_point`. -/
def NavMap.add_nav_point (m : NavMap) (p : NavPoint) : NavMap :=
  ⟨m.nav_points ++ [p]⟩

/-- `NavMap::sort_by_play_order`: stable-sort the roots by playOrder, then
sort every root's subtree recursively. -/
def NavMap.sort_by_play_order (m : NavMap) : NavMap :=
  ⟨(List.insertionSort navPointLe m.nav_points).map NavPoint.sort_children_by_play_order⟩

/-- `NavPoint::get_depth`: 1 for a leaf, else 1 plus the children's maximum
depth. -/
def NavPoint.get_depth : NavPoint → Nat
  | .mk _ _ _ _ _ children =>
    if children.isEmpty then 1
    else 1 + ((children.attach.map (fun c => NavPoint.get_depth c.1)).foldr Nat.max 0)
termination_by p => sizeOf p
decreasing_by
  have h2 := List.sizeOf_lt_of_mem c.2
  simp only [NavPoint.mk.sizeOf_spec]
  omega

/-- `NavMap::get_depth`: maximum root depth, 0 when empty. -/
def NavMap.get_depth (m : NavMap) : Nat :=
  (m.nav_points.map NavPoint.get_depth).foldr Nat.max 0

/-- `ncx/navigation.rs`: NCX head metadata. -/
structure NcxMetadata where
  uid : Option String
  depth : Option Nat
  total_page_count : Option Nat
  max_page_number : Option Nat
  other_metadata : List (String × String)
deriving Repr, DecidableEq

/-- `NcxMetadata::new`. -/
def NcxMetadata.new : NcxMetadata :=
  ⟨none, none, none, none, []⟩

/-- `ncx/navigation.rs`: the document title. -/
structure DocTitle where
  text : String
deriving Repr, DecidableEq

/-- `ncx/navigation.rs`: one page target. -/
structure PageTarget where
  id : String
  page_type : String
  value : String
  play_order : Nat
  nav_label : NavLabel
  content : NavContent
deriving Repr, DecidableEq

/-- `ncx/navigation.rs`: the page list. -/
structure PageList where
  nav_label : Option NavLabel
  page_targets : List PageTarget
deriving Repr, DecidableEq

/-- `ncx/parser.rs`: the parsed NCX document. -/
structure Ncx where
  version : String
  xml_lang : Option String
  metadata : NcxMetadata
  doc_title : Option DocTitle
  nav_map : NavMap
  page_list : Option PageList

/-- `Ncx::parse_ncx_attributes`: version and `xml:lang` of the root
element (translated literally; quick_xml's `local_name` comparison is kept
as in the source). -/
def parse_ncx_attributes (attrs : List (String × String)) : String × Option String :=
  (attrLast attrs "version" "", attrLastOpt attrs "xml:lang")

/-- `Ncx::parse_meta_element`: `dtb:`-prefixed names populate the known
fields (numeric ones via `parse().ok()`), other names go to the other
metadata map. -/
def ncx_parse_meta_element (attrs : List (String × String)) (metadata : NcxMetadata) :
    NcxMetadata :=
  let name := attrLast attrs "name" ""
  let content := attrLast attrs "content" ""
  if name = "dtb:uid" then { metadata with uid := some content }
  else if name = "dtb:depth" then { metadata with depth := parseU32 content }
  else if name = "dtb:totalPageCount" then { metadata with total_page_count := parseU32 content }
  else if name = "dtb:maxPageNumber" then { metadata with max_page_number := parseU32 content }
  else { metadata with other_metadata := assocInsert metadata.other_metadata name content }

/-- `Ncx::parse_nav_point_attributes`: id, playOrder (`parse().unwrap_or(0)`)
and class. -/
def parse_nav_point_attributes (attrs : List (String × String)) :
    String × Nat × Option String :=
  attrs.foldl (fun st kv =>
    if kv.1 = "id" then (kv.2, st.2.1, st.2.2)
    else if kv.1 = "playOrder" then (st.1, (parseU32 kv.2).getD 0, st.2.2)
    else if kv.1 = "class" then (st.1, st.2.1, some kv.2)
    else st) ("", 0, none)

/-- `Ncx::parse_content_src`: the first `src` attribute, else empty. -/
def parse_content_src (attrs : List (String × String)) : String :=
  ((attrs.find? (fun kv => kv.1 = "src")).map (·.2)).getD ""

/-- `Ncx::parse_page_target_attributes`: id, type (default "normal"),
value, playOrder (`parse().unwrap_or(0)`). -/
def parse_page_target_attributes (attrs : List (String × String)) :
    String × String × String × Nat :=
  attrs.foldl (fun st kv =>
    if kv.1 = "id" then (kv.2, st.2.1, st.2.2.1, st.2.2.2)
    else if kv.1 = "type" then (st.1, kv.2, st.2.2.1, st.2.2.2)
    else if kv.1 = "value" then (st.1, st.2.1, kv.2, st.2.2.2)
    else if kv.1 = "playOrder" then (st.1, st.2.1, st.2.2.1, (parseU32 kv.2).getD 0)
    else st) ("", "normal", "", 0)

/-- The mutable state of the `Ncx::parse_xml` event loop. -/
structure NcxParseState where
  version : String
  xml_lang : Option String
  metadata : NcxMetadata
  doc_title : Option DocTitle
  nav_map : NavMap
  page_list : Option PageList
  current_section : String
  text_content : String
  nav_point_stack : List NavPoint
  current_nav_point : Option NavPoint
  current_nav_label : Option NavLabel
  current_nav_content : Option NavContent
  current_page_list : PageList
  current_page_target : Option PageTarget
  current_doc_title : Option DocTitle

/-- The initial state of the `Ncx::parse_xml` loop. -/
def ncxInit : NcxParseState :=
  ⟨"", none, NcxMetadata.new, none, ⟨[]⟩, none, "", "", [], none, none, none, ⟨none, []⟩,
    none, none⟩

/-- The `Event::Start` arm of the `Ncx::parse_xml` loop.  Every start event
clears the text buffer after dispatch. -/
def ncxStartEvent (st : NcxParseState) (n : String) (attrs : List (String × String)) :
    NcxParseState :=
  let st' :=
    if n = "ncx" then
      let va := parse_ncx_attributes attrs
      { st with version := va.1, xml_lang := va.2 }
    else if n = "head" then { st with current_section := "head" }
    else if n = "docTitle" then
      { st with current_section := "docTitle", current_doc_title := some ⟨""⟩ }
    else if n = "navMap" then { st with current_section := "navMap" }
    else if n = "pageList" then
      { st with current_section := "pageList", current_page_list := ⟨none, []⟩ }
    else if n = "meta" ∧ st.current_section = "head" then
      { st with metadata := ncx_parse_meta_element attrs st.metadata }
    else if n = "navPoint" ∧ st.current_section = "navMap" then
      let ipc := parse_nav_point_attributes attrs
      let stack' :=
        match st.current_nav_point with
        | some np => np :: st.nav_point_stack
        | none => st.nav_point_stack
      { st with
        nav_point_stack := stack'
        current_nav_point := some (.mk ipc.1 ipc.2.1 ipc.2.2 ⟨""⟩ ⟨""⟩ []) }
    else if n = "navLabel" ∧ st.current_section = "navMap" then
      { st with current_nav_label := some ⟨""⟩ }
    else if n = "content" ∧ st.current_section = "navMap" then
      { st with current_nav_content := some ⟨parse_content_src attrs⟩ }
    else if n = "pageTarget" ∧ st.current_section = "pageList" then
      let pt := parse_page_target_attributes attrs
      { st with current_page_target := some ⟨pt.1, pt.2.1, pt.2.2.1, pt.2.2.2, ⟨""⟩, ⟨""⟩⟩ }
    else st
  { st' with text_content := "" }

/-- The `Event::Empty` arm of the `Ncx::parse_xml` loop (the source
configures `expand_empty_elements`, so this arm is mostly redundant; it is
kept as written). -/
def ncxEmptyEvent (st : NcxParseState) (n : String) (attrs : List (String × String)) :
    NcxParseState :=
  if n = "meta" ∧ st.current_section = "head" then
    { st with metadata := ncx_parse_meta_element attrs st.metadata }
  else if n = "content" ∧ st.current_section = "navMap" then
    { st with current_nav_content := some ⟨parse_content_src attrs⟩ }
  else st

/-- The `Event::End` arm of the `Ncx::parse_xml` loop.  The `Option::take`
calls clear the taken slot even when the companion slot is absent. -/
def ncxEndEvent (st : NcxParseState) (n : String) : NcxParseState :=
  if n = "head" ∨ n = "navMap" then { st with current_section := "" }
  else if n = "pageList" then
    let pl :=
      if st.current_page_list.page_targets ≠ [] then some st.current_page_list
      else st.page_list
    { st with page_list := pl, current_section := "" }
  else if n = "docTitle" then
    match st.current_doc_title with
    | some _ =>
      { st with
        doc_title := some ⟨st.text_content.trim⟩
        current_doc_title := none
        current_section := "" }
    | none => { st with current_section := "" }
  else if n = "text" ∧ st.current_section = "navMap" then
    match st.current_nav_label with
    | some _ => { st with current_nav_label := some ⟨st.text_content.trim⟩ }
    | none => st
  else if n = "navLabel" ∧ st.current_section = "navMap" then
    match st.current_nav_label, st.current_nav_point with
    | some lbl, some np =>
      { st with
        current_nav_label := none
        current_nav_point := some (.mk np.id np.play_order np.cls lbl np.content np.children) }
    | _, _ => { st with current_nav_label := none }
  else if n = "content" ∧ st.current_section = "navMap" then
    match st.current_nav_content, st.current_nav_point with
    | some ct, some np =>
      { st with
        current_nav_content := none
        current_nav_point := some (.mk np.id np.play_order np.cls np.nav_label ct np.children) }
    | _, _ => { st with current_nav_content := none }
  else if n = "navPoint" ∧ st.current_section = "navMap" then
    match st.current_nav_point with
    | some np =>
      match st.nav_point_stack with
      | parent :: rest =>
        { st with
          nav_point_stack := rest
          current_nav_point := some (.mk parent.id parent.play_order parent.cls
            parent.nav_label parent.content (parent.children ++ [np])) }
      | [] =>
        { st with current_nav_point := none, nav_map := st.nav_map.add_nav_point np }
    | none => st
  else if n = "text" ∧ st.current_section = "pageList" then
    match st.current_page_target with
    | some pt =>
      { st with current_page_target := some { pt with nav_label := ⟨st.text_content.trim⟩ } }
    | none =>
      match st.current_page_list.nav_label with
      | none =>
        { st with current_page_list :=
            { st.current_page_list with nav_label := some ⟨st.text_content.trim⟩ } }
      | some _ => st
  else if n = "pageTarget" ∧ st.current_section = "pageList" then
    match st.current_page_target with
    | some pt =>
      { st with
        current_page_target := none
        current_page_list :=
          { st.current_page_list with
            page_targets := st.current_page_list.page_targets ++ [pt] } }
    | none => st
  else st

/-- One iteration of the `Ncx::parse_xml` loop. -/
def ncxStep (st : NcxParseState) (ev : XmlEvent) : NcxParseState :=
  match ev with
  | .start n attrs => ncxStartEvent st n attrs
  | .empty n attrs => ncxEmptyEvent st n attrs
  | .endE n => ncxEndEvent st n
  | .text s => { st with text_content := st.text_content ++ s }

/-- `Ncx::parse_xml`: run the event loop, then sort the navigation map by
playOrder.  XML and attribute malformation errors live below the event
abstraction, so every event list is an accepted document. -/
def Ncx.parse_xml (events : List XmlEvent) : Ncx :=
  let st := events.foldl ncxStep ncxInit
  ⟨st.version, st.xml_lang, st.metadata, st.doc_title, st.nav_map.sort_by_play_order,
    st.page_list⟩

/-- `ncx/toc_tree.rs`: a navigation tree node (display-only configuration
fields are not part of the data model). -/
inductive TocTreeNode where
  | mk (play_order : Nat) (title : String) (src : String) (id : String)
      (children : List TocTreeNode) (depth : Nat)
deriving Repr

def TocTreeNode.play_order : TocTreeNode → Nat
  | .mk po _ _ _ _ _ => po

def TocTreeNode.title : TocTreeNode → String
  | .mk _ t _ _ _ _ => t

def TocTreeNode.src : TocTreeNode → String
  | .mk _ _ s _ _ _ => s

def TocTreeNode.id : TocTreeNode → String
  | .mk _ _ _ i _ _ => i

def TocTreeNode.children : TocTreeNode → List TocTreeNode
  | .mk _ _ _ _ c _ => c

def TocTreeNode.depth : TocTreeNode → Nat
  | .mk _ _ _ _ _ d => d

/-- `TocTreeNode::get_max_depth`: the maximum `depth` field over the
subtree, starting from the node's own depth. -/
def TocTreeNode.get_max_depth : TocTreeNode → Nat
  | .mk _ _ _ _ children depth =>
    (children.attach.map (fun c => TocTreeNode.get_max_depth c.1)).foldl Nat.max depth
termination_by p => sizeOf p
decreasing_by
  have h2 := List.sizeOf_lt_of_mem c.2
  simp only [TocTreeNode.mk.sizeOf_spec]
  omega

/-- `TocTreeNode::get_total_nodes`. -/
def TocTreeNode.get_total_nodes : TocTreeNode → Nat
  | .mk _ _ _ _ children _ =>
    (children.attach.map (fun c => TocTreeNode.get_total_nodes c.1)).foldl (· + ·) 1
termination_by p => sizeOf p
decreasing_by
  have h2 := List.sizeOf_lt_of_mem c.2
  simp only [TocTreeNode.mk.sizeOf_spec]
  omega

/-- `TocTreeNode::collect_leaf_nodes`. -/
def TocTreeNode.collect_leaf_nodes : TocTreeNode → List TocTreeNode
  | .mk po t s i children d =>
    if children.isEmpty then [.mk po t s i children d]
    else ((children.attach.map (fun c => TocTreeNode.collect_leaf_nodes c.1)).foldl
      (· ++ ·) [])
termination_by p => sizeOf p
decreasing_by
  have h2 := List.sizeOf_lt_of_mem c.2
  simp only [TocTreeNode.mk.sizeOf_spec]
  omega

/-- `ncx/toc_tree.rs`: the statistics record. -/
structure TocStatistics where
  total_nodes : Nat
  max_depth : Nat
  leaf_count : Nat
  root_count : Nat
deriving Repr, DecidableEq

/-- `ncx/toc_tree.rs`: the navigation tree (title and roots; the display
style flags and the archive back-reference play no role in the data
model). -/
structure TocTree where
  title : Option String
  roots : List TocTreeNode

/-- `TocTree::add_root`. -/
def TocTree.add_root (t : TocTree) (node : TocTreeNode) : TocTree :=
  { t with roots := t.roots ++ [node] }

/-- `TocTree::get_statistics`. -/
def TocTree.get_statistics (t : TocTree) : TocStatistics :=
  let total_nodes := t.roots.foldl (fun acc r => acc + r.get_total_nodes) 0
  let max_depth := t.roots.foldl (fun acc r => Nat.max acc r.get_max_depth) 0
  let leaf_count := t.roots.foldl (fun acc r => acc + r.collect_leaf_nodes.length) 0
  ⟨total_nodes, max_depth, leaf_count, t.roots.length⟩

/-- `convert_nav_point_to_toc_node`: depth-first copy, each child one level
deeper than its parent. -/
def convert_nav_point_to_toc_node : NavPoint → Nat → TocTreeNode
  | .mk i po _ lbl ct children, depth =>
    .mk po lbl.text ct.src i
      ((children.attach.map (fun c => convert_nav_point_to_toc_node c.1 (depth + 1))))
      depth
termination_by p _ => sizeOf p
decreasing_by
  have h2 := List.sizeOf_lt_of_mem c.2
  simp only [NavPoint.mk.sizeOf_spec]
  omega

/-- `create_toc_tree_from_ncx`: document title plus one converted root per
navigation point, roots at depth 0. -/
def create_toc_tree_from_ncx (ncx : Ncx) : TocTree :=
  ⟨ncx.doc_title.map DocTitle.text,
    ncx.nav_map.nav_points.map (fun p => convert_nav_point_to_toc_node p 0)⟩

/-- `TocTreeNode::normalize_path`: walk the `/`-separated components,
dropping `.` (and the empty components the `Path::components` iterator never
yields), popping the accumulator on `..`, and rejoin with `/`. -/
def TocTreeNode.normalize_path (path : String) : String :=
  let components := (splitOnPred (fun c => c = '/') path.data).foldl (fun acc comp =>
    if comp = ".." then acc.dropLast
    else if comp = "." then acc
    else if comp = "" then acc
    else acc ++ [comp]) ([] : List String)
  joinSlash components

/-- `PathBuf::push` on Unix: an absolute `src` replaces the buffer, a
relative one is appended after a separator. -/
def pathBufPush (dir src : String) : String :=
  match src.data with
  | '/' :: _ => src
  | _ => dir ++ "/" ++ src

/-- The full-path computation of `TocTreeNode::get_html_content`: prefer
the navigation-document directory, falling back to the package directory;
an empty directory short-circuits to the raw `src`, a nonempty one is
joined and normalized. -/
def TocTreeNode.content_full_path (src : String) (ncx_dir : Option String)
    (opf_dir : String) : String :=
  match ncx_dir with
  | some d =>
    if d = "" then src
    else TocTreeNode.normalize_path (pathBufPush d src)
  | none =>
    if opf_dir = "" then src
    else TocTreeNode.normalize_path (pathBufPush opf_dir src)

/-- Content-path resolution exactly as claim C3 words it: join the
directory with the relative source (an empty directory contributing
nothing), then always normalize. -/
def resolveContentPathSpec (dir src : String) : String :=
  TocTreeNode.normalize_path (if dir = "" then src else dir ++ "/" ++ src)

/-- `reader.rs`: the cached path information. -/
structure EpubPaths where
  opf_path : String
  opf_directory : String
  ncx_path : Option String
deriving Repr, DecidableEq

/-- The conventional navigation-document paths probed by
`Epub::find_ncx_path`, in order. -/
def commonNcxPaths : List String :=
  ["toc.ncx", "OEBPS/toc.ncx", "content/toc.ncx", "EPUB/toc.ncx"]

/-- `Epub::find_ncx_path`: resolve the spine `toc` reference through the
manifest under the package directory; on any failure (unreadable or
unparsable package, no `toc` attribute, unresolvable id) probe the
conventional paths; else none.  Reading and parsing the package document is
abstracted into the `Option Opf` argument, archive membership into
`fileExists`. -/
def Epub.find_ncx_path (opfRead : Option Opf) (opf_directory : String)
    (fileExists : String → Bool) : Option String :=
  let fallback := commonNcxPaths.find? fileExists
  match opfRead with
  | some opf =>
    match opf.spine_toc with
    | some spine_toc =>
      match Opf.get_manifest_item opf spine_toc with
      | some manifest_item =>
        some (if opf_directory = "" then manifest_item.href
          else opf_directory ++ "/" ++ manifest_item.href)
      | none => fallback
    | none => fallback
  | none => fallback

/-- The body of the `Epub::ncx` lazy initializer: path failures propagate,
but a missing path, a failed read or a failed parse of the navigation
document all degrade to `ok none`. -/
def Epub.ncxCompute (paths : Except EpubError EpubPaths)
    (readFile : String → Except EpubError String)
    (parseNcx : String → Except EpubError Ncx) : Except EpubError (Option Ncx) :=
  match paths with
  | .error e => .error e
  | .ok p =>
    match p.ncx_path with
    | some ncx_path =>
      match readFile ncx_path with
      | .ok ncx_content =>
        match parseNcx ncx_content with
        | .ok ncx => .ok (some ncx)
        | .error _ => .ok none
      | .error _ => .ok none
    | none => .ok none

/-- The body of the `Epub::container` lazy initializer: read and parse
failures propagate via `?`. -/
def Epub.containerCompute (readFile : String → Except EpubError String)
    (parseContainer : String → Except EpubError Container) : Except EpubError Container :=
  match readFile "META-INF/container.xml" with
  | .ok content => parseContainer content
  | .error e => .error e

/-- The body of the `Epub::opf` lazy initializer: path, read and parse
failures propagate via `?`. -/
def Epub.opfCompute (paths : Except EpubError EpubPaths)
    (readFile : String → Except EpubError String)
    (parseOpf : String → Except EpubError Opf) : Except EpubError Opf :=
  match paths with
  | .error e => .error e
  | .ok p =>
    match readFile p.opf_path with
    | .ok content => parseOpf content
    | .error e => .error e

/-- The conventional cover filenames probed by `Epub::cover`, in order. -/
def commonCoverNames : List String :=
  ["cover.jpg", "cover.jpeg", "cover.png", "cover.gif",
   "Cover.jpg", "Cover.jpeg", "Cover.png", "Cover.gif"]

/-- Rust `str::contains` on a literal pattern. -/
def containsSubstr (s pat : String) : Bool :=
  (s.splitOn pat).length > 1

/-- `Epub::is_image_file`: case-insensitive extension check. -/
def is_image_file (file_path : String) : Bool :=
  let lower_path := file_path.toLower
  lower_path.endsWith ".jpg" || lower_path.endsWith ".jpeg" ||
  lower_path.endsWith ".png" || lower_path.endsWith ".gif" ||
  lower_path.endsWith ".webp" || lower_path.endsWith ".svg"

/-- `Epub::cover`, reduced to the path it selects: (1) the manifest
cover-image item, if its extraction succeeds; (2) the first manifest item
whose `properties` string contains the substring `cover-image` and whose
extraction succeeds; (3) the first conventional cover filename whose
extraction succeeds.  `extract` abstracts `extract_cover_image` success
(extension check plus archive read) for a path relative to the package
directory.  The metadata store is never consulted. -/
def Epub.coverPath (opf : Opf) (extract : String → Bool) : Option String :=
  let step2 := (opf.manifest.find? (fun kv =>
    match kv.2.properties with
    | some properties => containsSubstr properties "cover-image" && extract kv.2.href
    | none => false)).map (fun kv => kv.2.href)
  let step3 := commonCoverNames.find? extract
  let fallback := match step2 with
    | some p => some p
    | none => step3
  match opf.get_cover_image_path with
  | some cover_path => if extract cover_path then some cover_path else fallback
  | none => fallback

/-- Cover discovery exactly as claim C5 words it: (a) manifest cover-image
item; (b) metadata `cover` resolved as manifest id else literal; (c)
other-metadata `cover`, same resolution; (d) conventional filenames probed
in the package directory; (e) first image-media-typed manifest item; (f)
first archive file with an image extension. -/
def coverDiscoverySpec (opf : Opf) (probe : String → Bool) (files : List String) :
    Option String :=
  match (opf.manifest.find? (fun kv => kv.2.is_cover_image)).map (·.2.href) with
  | some p => some p
  | none =>
    match opf.metadata.cover with
    | some c => some (((assocGet opf.manifest c).map (·.href)).getD c)
    | none =>
      match assocGet opf.metadata.other "cover" with
      | some c => some (((assocGet opf.manifest c).map (·.href)).getD c)
      | none =>
        match commonCoverNames.find? probe with
        | some p => some p
        | none =>
          match (opf.manifest.find? (fun kv => kv.2.is_image)).map (·.2.href) with
          | some p => some p
          | none => files.find? is_image_file

theorem NavPoint.sort_children_def (i : String) (po : Nat) (cls : Option String)
    (lbl : NavLabel) (ct : NavContent) (children : List NavPoint) :
    NavPoint.sort_children_by_play_order (.mk i po cls lbl ct children)
      = .mk i po cls lbl ct
          ((List.insertionSort navPointLe children).map NavPoint.sort_children_by_play_order) := by
  rw [NavPoint.sort_children_by_play_order]
  congr 1
  exact List.attach_map_val _ _

theorem sort_children_play_order (p : NavPoint) :
    (NavPoint.sort_children_by_play_order p).play_order = p.play_order := by
  cases p with
  | mk i po cls lbl ct children =>
    rw [NavPoint.sort_children_def]
    rfl

theorem sort_children_children (p : NavPoint) :
    (NavPoint.sort_children_by_play_order p).children
      = (List.insertionSort navPointLe p.children).map NavPoint.sort_children_by_play_order := by
  cases p with
  | mk i po cls lbl ct children =>
    rw [NavPoint.sort_children_def]
    rfl

theorem pairwise_insertionSort_navPointLe (l : List NavPoint) :
    List.Pairwise navPointLe (List.insertionSort navPointLe l) :=
  List.sorted_insertionSort navPointLe l

theorem pairwise_map_sort_children {l : List NavPoint} (h : List.Pairwise navPointLe l) :
    List.Pairwise navPointLe (l.map NavPoint.sort_children_by_play_order) := by
  rw [List.pairwise_map]
  refine h.imp ?_
  intro a b hab
  simpa [navPointLe, sort_children_play_order] using hab

theorem filter_orderedInsert_play_order (x : NavPoint) (t : List NavPoint) (k : Nat) :
    (List.orderedInsert navPointLe x t).filter (fun p => p.play_order == k)
      = if x.play_order == k then x :: t.filter (fun p => p.play_order == k)
        else t.filter (fun p => p.play_order == k) := by
  induction t with
  | nil =>
    cases hx : x.play_order == k <;> simp [List.orderedInsert, List.filter, hx]
  | cons b t ih =>
    by_cases h : navPointLe x b
    · rw [List.orderedInsert_of_le _ _ h]
      cases hx : x.play_order == k <;> simp [List.filter_cons, hx]
    · rw [show List.orderedInsert navPointLe x (b :: t)
          = b :: List.orderedInsert navPointLe x t from by simp [List.orderedInsert, h]]
      by_cases hx : (x.play_order == k) = true
      · have hbk : (b.play_order == k) = false := by
          have hlt : b.play_order < x.play_order :=
            Nat.lt_of_not_le (by simpa [navPointLe] using h)
          have hxk : x.play_order = k := by simpa using hx
          simp only [beq_eq_false_iff_ne, ne_eq]
          omega
        simp [List.filter_cons, hbk, hx, ih]
      · have hx' : (x.play_order == k) = false := by simpa using hx
        cases hbk : b.play_order == k <;> simp [List.filter_cons, hbk, hx', ih]

theorem filter_insertionSort_play_order (l : List NavPoint) (k : Nat) :
    (List.insertionSort navPointLe l).filter (fun p => p.play_order == k)
      = l.filter (fun p => p.play_order == k) := by
  induction l with
  | nil => rfl
  | cons a t ih =>
    rw [List.insertionSort, filter_orderedInsert_play_order, ih]
    cases hx : a.play_order == k <;> simp [List.filter_cons, hx]

theorem filter_map_sort_children (l : List NavPoint) (k : Nat) :
    (l.map NavPoint.sort_children_by_play_order).filter (fun p => p.play_order == k)
      = (l.filter (fun p => p.play_order == k)).map NavPoint.sort_children_by_play_order := by
  induction l with
  | nil => rfl
  | cons a t ih =>
    cases hk : a.play_order == k <;>
      simp [List.filter_cons, sort_children_play_order, hk, ih]

/-- The sortedness invariant of claim C1: a node's children are pairwise
non-decreasing in playOrder, recursively. -/
inductive NavPoint.ChildrenSorted : NavPoint → Prop where
  | intro (p : NavPoint) (hp : List.Pairwise navPointLe p.children)
      (hc : ∀ c ∈ p.children, NavPoint.ChildrenSorted c) : NavPoint.ChildrenSorted p

theorem childrenSorted_sort :
    ∀ p : NavPoint, NavPoint.ChildrenSorted (NavPoint.sort_children_by_play_order p)
  | .mk i po cls lbl ct children => by
    rw [NavPoint.sort_children_def]
    refine .intro _ ?_ ?_
    · simpa [NavPoint.children] using
        pairwise_map_sort_children (pairwise_insertionSort_navPointLe children)
    · intro c hc
      simp only [NavPoint.children] at hc
      obtain ⟨c', hc', rfl⟩ := List.mem_map.mp hc
      have hmem : c' ∈ children :=
        (List.perm_insertionSort navPointLe children).mem_iff.mp hc'
      exact childrenSorted_sort c'
termination_by p => sizeOf p
decreasing_by
  have h2 := List.sizeOf_lt_of_mem hmem
  simp only [NavPoint.mk.sizeOf_spec]
  omega


theorem convert_nav_point_def (i : String) (po : Nat) (cls : Option String)
    (lbl : NavLabel) (ct : NavContent) (children : List NavPoint) (depth : Nat) :
    convert_nav_point_to_toc_node (.mk i po cls lbl ct children) depth
      = .mk po lbl.text ct.src i
          (children.map (fun c => convert_nav_point_to_toc_node c (depth + 1))) depth := by
  rw [convert_nav_point_to_toc_node]
  congr 1
  exact List.attach_map_val children (fun c => convert_nav_point_to_toc_node c (depth + 1))

theorem get_max_depth_def (po : Nat) (t s i : String) (children : List TocTreeNode)
    (depth : Nat) :
    TocTreeNode.get_max_depth (.mk po t s i children depth)
      = (children.map TocTreeNode.get_max_depth).foldl Nat.max depth := by
  rw [TocTreeNode.get_max_depth]
  congr 1
  exact List.attach_map_val children TocTreeNode.get_max_depth

theorem get_depth_def (i : String) (po : Nat) (cls : Option String) (lbl : NavLabel)
    (ct : NavContent) (children : List NavPoint) :
    NavPoint.get_depth (.mk i po cls lbl ct children)
      = if children.isEmpty then 1
        else 1 + (children.map NavPoint.get_depth).foldr Nat.max 0 := by
  rw [NavPoint.get_depth,
    List.attach_map_val children NavPoint.get_depth]

theorem nat_add_max (d a b : Nat) : Nat.max (d + a) (d + b) = d + Nat.max a b := by
  rcases Nat.le_total a b with h | h
  · have h1 : Nat.max a b = b := Nat.max_eq_right h
    have h2 : Nat.max (d + a) (d + b) = d + b := Nat.max_eq_right (Nat.add_le_add_left h d)
    rw [h1, h2]
  · have h1 : Nat.max a b = a := Nat.max_eq_left h
    have h2 : Nat.max (d + a) (d + b) = d + a := Nat.max_eq_left (Nat.add_le_add_left h d)
    rw [h1, h2]

theorem foldl_max_eq (a : Nat) (L : List Nat) :
    List.foldl Nat.max a L = Nat.max a (L.foldr Nat.max 0) := by
  induction L generalizing a with
  | nil => simp
  | cons x L ih =>
    simp only [List.foldl, List.foldr]
    rw [ih]
    exact Nat.max_assoc a x _

theorem map_foldr_max_add (d : Nat) : ∀ (M : List Nat), M ≠ [] →
    (M.map (fun x => d + x)).foldr Nat.max 0 = d + M.foldr Nat.max 0
  | [], h => absurd rfl h
  | [y], _ => by simp
  | y :: z :: M2, _ => by
    have ih := map_foldr_max_add d (z :: M2) (by simp)
    simp only [List.map_cons, List.foldr_cons] at ih ⊢
    rw [ih, nat_add_max]

theorem convert_max_depth_succ :
    ∀ (p : NavPoint) (d : Nat),
      (convert_nav_point_to_toc_node p d).get_max_depth + 1 = d + p.get_depth
  | .mk i po cls lbl ct children, d => by
    rw [convert_nav_point_def, get_max_depth_def, get_depth_def, List.map_map]
    have hmap : children.map
          (TocTreeNode.get_max_depth ∘ fun c => convert_nav_point_to_toc_node c (d + 1))
        = children.map (fun c => d + c.get_depth) := by
      apply List.map_congr_left
      intro c hc
      have hrec := convert_max_depth_succ c (d + 1)
      simp only [Function.comp]
      omega
    rw [hmap]
    cases children with
    | nil => simp
    | cons c0 rest =>
      rw [show ((c0 :: rest).map (fun c => d + c.get_depth))
            = ((c0 :: rest).map NavPoint.get_depth).map (fun x => d + x) by
          rw [List.map_map]
          rfl]
      rw [foldl_max_eq, map_foldr_max_add d _ (by simp)]
      have hmax : Nat.max d (d + ((c0 :: rest).map NavPoint.get_depth).foldr Nat.max 0)
          = d + ((c0 :: rest).map NavPoint.get_depth).foldr Nat.max 0 :=
        Nat.max_eq_right (Nat.le_add_right d _)
      rw [hmax, show (c0 :: rest).isEmpty = false from rfl, if_neg Bool.false_ne_true]
      simp only [List.map_cons]
      omega
termination_by p _ => sizeOf p
decreasing_by
  have h2 := List.sizeOf_lt_of_mem hc
  simp only [NavPoint.mk.sizeOf_spec]
  omega

/-- C1: for every navigation document accepted by `Ncx::parse_xml`, the root
list and, recursively, every node's children list of the returned map are
sorted in non-decreasing playOrder, and the sort is stable: filtering any
level of the result by a playOrder value yields the nodes of the pre-sort
(document-order) level with that value, in their original insertion order,
each only recursively sorted inside. -/
theorem ncx_parse_sorted_and_stable (events : List XmlEvent) :
    (List.Pairwise navPointLe (Ncx.parse_xml events).nav_map.nav_points
      ∧ ∀ p ∈ (Ncx.parse_xml events).nav_map.nav_points, NavPoint.ChildrenSorted p)
  ∧ (∀ k : Nat,
      (Ncx.parse_xml events).nav_map.nav_points.filter (fun p => p.play_order == k)
        = ((events.foldl ncxStep ncxInit).nav_map.nav_points.filter
            (fun p => p.play_order == k)).map NavPoint.sort_children_by_play_order)
  ∧ (∀ (p : NavPoint) (k : Nat),
      (NavPoint.sort_children_by_play_order p).children.filter (fun c => c.play_order == k)
        = (p.children.filter (fun c => c.play_order == k)).map
            NavPoint.sort_children_by_play_order) := by
  have hnav : (Ncx.parse_xml events).nav_map.nav_points
      = (List.insertionSort navPointLe
          (events.foldl ncxStep ncxInit).nav_map.nav_points).map
            NavPoint.sort_children_by_play_order := rfl
  refine ⟨⟨?_, ?_⟩, ?_, ?_⟩
  · rw [hnav]
    exact pairwise_map_sort_children (pairwise_insertionSort_navPointLe _)
  · rw [hnav]
    intro p hp
    obtain ⟨q, _, rfl⟩ := List.mem_map.mp hp
    exact childrenSorted_sort q
  · intro k
    rw [hnav, filter_map_sort_children, filter_insertionSort_play_order]
  · intro p k
    rw [sort_children_children, filter_map_sort_children, filter_insertionSort_play_order]

/-- C4: container parsing collects exactly the well-formed rootfile entries
in source order and fails iff there are none; package-path selection returns
the first entry with the package media type, else the first entry, else
none. -/
theorem container_parse_and_select (events : List XmlEvent) :
    (∀ c, Container.parse_xml events = .ok c →
      c.rootfiles = wellFormedRootfiles events false)
  ∧ ((∃ e, Container.parse_xml events = .error e) ↔ wellFormedRootfiles events false = [])
  ∧ (∀ c : Container, Container.get_opf_path c
      = match (c.rootfiles.filter (fun rf => rf.media_type = opfMediaType)).head? with
        | some rf => some rf.full_path
        | none => c.rootfiles.head?.map (·.full_path)) := by
  have hscan : (events.foldl containerStep (false, [])).2 = wellFormedRootfiles events false := by
    simpa using containerStep_foldl events false []
  refine ⟨?_, ?_, ?_⟩
  · intro c hc
    simp only [Container.parse_xml] at hc
    split at hc
    · cases hc
    · rw [← Except.ok.inj hc, ← hscan]
  · constructor
    · rintro ⟨e, he⟩
      simp only [Container.parse_xml] at he
      split at he
      · next h => rw [← hscan]; exact List.isEmpty_iff.mp h
      · cases he
    · intro h
      refine ⟨.ContainerParseError "no rootfile entry found", ?_⟩
      simp only [Container.parse_xml]
      rw [if_pos (by rw [hscan, h]; rfl)]
  · intro c
    rw [Container.get_opf_path, find?_eq_head?_filter]

/-- Witness for C4 on a concrete two-rootfile container document. -/
theorem container_parse_and_select_witness :
    (Container.mk
      [⟨"OEBPS/content.opf", "application/oebps-package+xml"⟩,
       ⟨"OEBPS/toc.ncx", "application/x-dtbncx+xml"⟩]).rootfiles
      = wellFormedRootfiles
          [XmlEvent.start "container" [], XmlEvent.start "rootfiles" [],
           XmlEvent.empty "rootfile"
             [("full-path", "OEBPS/content.opf"),
              ("media-type", "application/oebps-package+xml")],
           XmlEvent.empty "rootfile"
             [("full-path", "OEBPS/toc.ncx"), ("media-type", "application/x-dtbncx+xml")],
           XmlEvent.endE "rootfiles", XmlEvent.endE "container"] false :=
  (container_parse_and_select _).1 _ (by rfl)

/-- C7: with the cached paths available, the navigation accessor always
returns success — a missing path, a failed read and a failed parse of the
navigation document all yield `ok`; container and package read/parse
failures propagate to the caller unchanged. -/
theorem ncx_failures_nonfatal :
    (∀ (p : EpubPaths) (readFile : String → Except EpubError String)
        (parseNcx : String → Except EpubError Ncx),
      ∃ v, Epub.ncxCompute (.ok p) readFile parseNcx = .ok v)
  ∧ (∀ (readFile : String → Except EpubError String)
        (parseContainer : String → Except EpubError Container) (e : EpubError),
      readFile "META-INF/container.xml" = .error e →
      Epub.containerCompute readFile parseContainer = .error e)
  ∧ (∀ (readFile : String → Except EpubError String)
        (parseContainer : String → Except EpubError Container)
        (content : String) (e : EpubError),
      readFile "META-INF/container.xml" = .ok content →
      parseContainer content = .error e →
      Epub.containerCompute readFile parseContainer = .error e)
  ∧ (∀ (p : EpubPaths) (readFile : String → Except EpubError String)
        (parseOpf : String → Except EpubError Opf) (e : EpubError),
      readFile p.opf_path = .error e →
      Epub.opfCompute (.ok p) readFile parseOpf = .error e)
  ∧ (∀ (p : EpubPaths) (readFile : String → Except EpubError String)
        (parseOpf : String → Except EpubError Opf) (content : String) (e : EpubError),
      readFile p.opf_path = .ok content → parseOpf content = .error e →
      Epub.opfCompute (.ok p) readFile parseOpf = .error e) := by
  refine ⟨?_, ?_, ?_, ?_, ?_⟩
  · intro p rf pn
    rcases hp : p.ncx_path with _ | np
    · exact ⟨none, by simp [Epub.ncxCompute, hp]⟩
    · rcases hr : rf np with e | content
      · exact ⟨none, by simp [Epub.ncxCompute, hp, hr]⟩
      · rcases hn : pn content with e | ncx
        · exact ⟨none, by simp [Epub.ncxCompute, hp, hr, hn]⟩
        · exact ⟨some ncx, by simp [Epub.ncxCompute, hp, hr, hn]⟩
  · intro rf pc e h
    simp [Epub.containerCompute, h]
  · intro rf pc content e h1 h2
    simp [Epub.containerCompute, h1, h2]
  · intro p rf po e h
    simp [Epub.opfCompute, h]
  · intro p rf po content e h1 h2
    simp [Epub.opfCompute, h1, h2]

/-- Witness for C7: a navigation path whose read fails still yields `ok`,
while the same failing read is fatal for the container. -/
theorem ncx_failures_nonfatal_witness :
    (∃ v, Epub.ncxCompute (.ok ⟨"content.opf", "", some "toc.ncx"⟩)
        (fun _ => .error .Io) (fun _ => .error .XmlError) = .ok v)
    ∧ Epub.containerCompute (fun _ => .error .Io)
        (fun _ => .ok ⟨[⟨"a.opf", "application/oebps-package+xml"⟩]⟩) = .error .Io :=
  ⟨ncx_failures_nonfatal.1 _ _ _, ncx_failures_nonfatal.2.1 _ _ .Io rfl⟩

/-- C8: a spine entry whose idref resolves to no manifest item contributes
nothing to the chapter path list — removing it changes nothing — and the
function is total, so the exclusion raises no error. -/
theorem spine_unknown_idref_dropped :
    ∀ (version : String) (md : Metadata) (manifest : List (String × ManifestItem))
      (s1 s2 : List SpineItem) (bad : SpineItem) (t : Option String),
      assocGet manifest bad.idref = none →
      Opf.get_chapter_paths ⟨version, md, manifest, s1 ++ bad :: s2, t⟩
        = Opf.get_chapter_paths ⟨version, md, manifest, s1 ++ s2, t⟩ := by
  intro version md manifest s1 s2 bad t h
  simp only [Opf.get_chapter_paths, List.filter_append, List.filter_cons]
  by_cases hl : bad.is_linear
  · simp [hl, List.filterMap_append, h]
  · simp [hl]

/-- Witness for C8: a spine entry referencing the unknown id `ghost` is
dropped silently. -/
theorem spine_unknown_idref_dropped_witness :
    Opf.get_chapter_paths
        ⟨"3.0", Metadata.new, [("a", ⟨"a", "a.xhtml", "application/xhtml+xml", none⟩)],
          [⟨"a", true⟩] ++ ⟨"ghost", true⟩ :: [], none⟩
      = Opf.get_chapter_paths
        ⟨"3.0", Metadata.new, [("a", ⟨"a", "a.xhtml", "application/xhtml+xml", none⟩)],
          [⟨"a", true⟩] ++ [], none⟩ :=
  spine_unknown_idref_dropped "3.0" Metadata.new _ [⟨"a", true⟩] [] ⟨"ghost", true⟩ none
    (by rfl)

/-- C10: the chapter path list is exactly the hrefs of the manifest items
referenced by the linear spine entries, in spine order; an entry with
`linear="no"` is excluded even when its idref resolves; and parsing an
`itemref` with `linear="no"` indeed yields a non-linear spine item. -/
theorem chapter_paths_linear_exact :
    (∀ opf : Opf,
      Opf.get_chapter_paths opf
        = opf.spine.filterMap (fun si =>
            if si.is_linear then (assocGet opf.manifest si.idref).map (·.href) else none))
  ∧ (∀ (version : String) (md : Metadata) (manifest : List (String × ManifestItem))
        (s1 s2 : List SpineItem) (id : String) (item : ManifestItem) (t : Option String),
      assocGet manifest id = some item →
      Opf.get_chapter_paths ⟨version, md, manifest, s1 ++ ⟨id, false⟩ :: s2, t⟩
        = Opf.get_chapter_paths ⟨version, md, manifest, s1 ++ s2, t⟩)
  ∧ parse_spine_item [("idref", "ch2"), ("linear", "no")] [] = [⟨"ch2", false⟩] := by
  refine ⟨?_, ?_, ?_⟩
  · intro opf
    rcases opf with ⟨v, md, manifest, spine, t⟩
    simp only [Opf.get_chapter_paths]
    induction spine with
    | nil => rfl
    | cons si rest ih =>
      by_cases hl : si.is_linear
      · cases hg : assocGet manifest si.idref <;>
          simp [List.filter_cons, List.filterMap_cons, hl, hg, ih]
      · simp [List.filter_cons, List.filterMap_cons, hl, ih]
  · intro version md manifest s1 s2 id item t h
    simp only [Opf.get_chapter_paths, List.filter_append, List.filter_cons]
    simp [SpineItem.is_linear]
  · rfl

/-- Witness for C10: a resolvable `linear="no"` entry is excluded from the
chapter list. -/
theorem chapter_paths_linear_exact_witness :
    Opf.get_chapter_paths
        ⟨"3.0", Metadata.new,
          [("a", ⟨"a", "a.xhtml", "application/xhtml+xml", none⟩),
           ("b", ⟨"b", "b.xhtml", "application/xhtml+xml", none⟩)],
          [⟨"a", true⟩] ++ ⟨"b", false⟩ :: [], none⟩
      = Opf.get_chapter_paths
        ⟨"3.0", Metadata.new,
          [("a", ⟨"a", "a.xhtml", "application/xhtml+xml", none⟩),
           ("b", ⟨"b", "b.xhtml", "application/xhtml+xml", none⟩)],
          [⟨"a", true⟩] ++ [], none⟩ :=
  chapter_paths_linear_exact.2.1 "3.0" Metadata.new _ [⟨"a", true⟩] [] "b"
    ⟨"b", "b.xhtml", "application/xhtml+xml", none⟩ none (by rfl)

/-- C2: a DublinCore creator with id `c1` plus refines facts
role=aut (scheme marc:relators) and display-seq=1 resolves to
name/author/1/c1; in general the refines role code is mapped through
aut/edt/trl/ill and passed through otherwise, and an unparsable
display-seq leaves the display sequence unset. -/
theorem creators_refines_resolution :
    (∀ name : String,
      (((Metadata.new.add_dublin_core "creator" name [("id", "c1")]).add_meta_refines_based
          "c1" "role" "aut" (some "marc:relators")).add_meta_refines_based
          "c1" "display-seq" "1" none).creators
        = [⟨name, some "author", some 1, some "c1"⟩])
  ∧ (∀ code name : String,
      ((Metadata.new.add_dublin_core "creator" name [("id", "c1")]).add_meta_refines_based
          "c1" "role" code (some "marc:relators")).creators
        = [⟨name,
            some (if code = "aut" then "author"
              else if code = "edt" then "editor"
              else if code = "trl" then "translator"
              else if code = "ill" then "illustrator"
              else code),
            none, some "c1"⟩])
  ∧ (∀ s name : String, parseU32 s = none →
      ((Metadata.new.add_dublin_core "creator" name [("id", "c1")]).add_meta_refines_based
          "c1" "display-seq" s none).creators
        = [⟨name, none, none, some "c1"⟩]) := by
  refine ⟨?_, ?_, ?_⟩
  · intro name
    rfl
  · intro code name
    rfl
  · intro s name h
    have base : ((Metadata.new.add_dublin_core "creator" name [("id", "c1")]).add_meta_refines_based
        "c1" "display-seq" s none).creators
        = [⟨name, none, parseU32 s, some "c1"⟩] := rfl
    rw [base, h]

/-- Witness for C2 at display-seq content `x1`, which does not parse. -/
theorem creators_refines_resolution_witness :
    ((Metadata.new.add_dublin_core "creator" "Jane Doe" [("id", "c1")]).add_meta_refines_based
        "c1" "display-seq" "x1" none).creators
      = [⟨"Jane Doe", none, none, some "c1"⟩] :=
  creators_refines_resolution.2.2 "x1" "Jane Doe" (by rfl)

/-- C3 counterexample: with an empty base directory the code returns the
relative source verbatim, skipping the normalization step the claim
prescribes for every resolution. -/
theorem content_path_claim_false :
    TocTreeNode.content_full_path "./chapter1.xhtml" (some "") "OEBPS"
      ≠ resolveContentPathSpec "" "./chapter1.xhtml" := by
  decide

/-- C3 amended: with a nonempty base directory (whether the
navigation-document directory or the package-directory fallback) the result
is the join normalized exactly as claimed; with an empty directory the
source is returned unchanged, without normalization; both quoted examples
hold. -/
theorem content_path_resolution_amended :
    (∀ d src : String, d ≠ "" →
      TocTreeNode.content_full_path src (some d) ""
        = TocTreeNode.normalize_path (pathBufPush d src))
  ∧ (∀ src opf_dir : String, opf_dir ≠ "" →
      TocTreeNode.content_full_path src none opf_dir
        = TocTreeNode.normalize_path (pathBufPush opf_dir src))
  ∧ (∀ src opf_dir : String, TocTreeNode.content_full_path src (some "") opf_dir = src)
  ∧ TocTreeNode.content_full_path "../images/x.png" (some "OEBPS/text") ""
      = "OEBPS/images/x.png"
  ∧ TocTreeNode.content_full_path "chapter1.xhtml" (some "") "" = "chapter1.xhtml" := by
  refine ⟨?_, ?_, ?_, ?_, ?_⟩
  · intro d src h
    simp [TocTreeNode.content_full_path, h]
  · intro src opf_dir h
    simp [TocTreeNode.content_full_path, h]
  · intro src opf_dir
    rfl
  · decide
  · rfl

/-- Witness for C3 (amended) at the claim's own example input. -/
theorem content_path_resolution_amended_witness :
    TocTreeNode.content_full_path "../images/x.png" (some "OEBPS/text") ""
      = TocTreeNode.normalize_path (pathBufPush "OEBPS/text" "../images/x.png") :=
  content_path_resolution_amended.1 "OEBPS/text" "../images/x.png" (by decide)

/-- C6: the navigation-document path resolves through the spine `toc`
reference and the manifest, joined under the package directory and
independent of any filename probing; only when that resolution fails is the
fixed conventional list probed in order, and with nothing in the archive
the result is absent. -/
theorem find_ncx_path_resolution :
    (∀ (opf : Opf) (dir : String) (fe : String → Bool) (t : String) (item : ManifestItem),
      opf.spine_toc = some t →
      Opf.get_manifest_item opf t = some item →
      Epub.find_ncx_path (some opf) dir fe
        = some (if dir = "" then item.href else dir ++ "/" ++ item.href))
  ∧ (∀ (dir : String) (fe : String → Bool),
      Epub.find_ncx_path none dir fe = commonNcxPaths.find? fe)
  ∧ (∀ (opf : Opf) (dir : String) (fe : String → Bool),
      opf.spine_toc = none →
      Epub.find_ncx_path (some opf) dir fe = commonNcxPaths.find? fe)
  ∧ (∀ (opf : Opf) (dir : String) (fe : String → Bool) (t : String),
      opf.spine_toc = some t → Opf.get_manifest_item opf t = none →
      Epub.find_ncx_path (some opf) dir fe = commonNcxPaths.find? fe)
  ∧ (∀ dir : String, Epub.find_ncx_path none dir (fun _ => false) = none) := by
  refine ⟨?_, ?_, ?_, ?_, ?_⟩
  · intro opf dir fe t item h1 h2
    simp [Epub.find_ncx_path, h1, h2]
  · intro dir fe
    rfl
  · intro opf dir fe h
    simp [Epub.find_ncx_path, h]
  · intro opf dir fe t h1 h2
    simp [Epub.find_ncx_path, h1, h2]
  · intro dir
    rfl

/-- Witness for C6 at the claim's example package: manifest item
ncx/toc.ncx and `<spine toc="ncx">`, resolved under package directory
`OEBPS` with every probe answering true (so probing demonstrably does not
matter). -/
theorem find_ncx_path_resolution_witness :
    Epub.find_ncx_path
        (some ⟨"2.0", Metadata.new,
          [("ncx", ⟨"ncx", "toc.ncx", "application/x-dtbncx+xml", none⟩)],
          [⟨"chapter1", true⟩], some "ncx"⟩)
        "OEBPS" (fun _ => true)
      = some "OEBPS/toc.ncx" := by
  have h := find_ncx_path_resolution.1
    ⟨"2.0", Metadata.new, [("ncx", ⟨"ncx", "toc.ncx", "application/x-dtbncx+xml", none⟩)],
      [⟨"chapter1", true⟩], some "ncx"⟩
    "OEBPS" (fun _ => true) "ncx" ⟨"ncx", "toc.ncx", "application/x-dtbncx+xml", none⟩
    (by rfl) (by rfl)
  simpa using h

/-- A package with a single image-typed manifest item, an empty metadata
store and an empty spine. -/
def coverOpf0 : Opf :=
  ⟨"3.0", Metadata.new, [("img1", ⟨"img1", "pic.png", "image/png", none⟩)], [], none⟩

/-- C5 counterexample: on a package whose only cover indicator is an
image-media-typed manifest item, the claimed chain returns that item at its
step (e) while both source functions return none — neither implements the
image-item or archive fallbacks, and `Epub::cover` never consults the
metadata. -/
theorem cover_discovery_claim_false :
    coverDiscoverySpec coverOpf0 (fun _ => false) [] = some "pic.png"
    ∧ Opf.get_cover_path coverOpf0 = none
    ∧ Epub.coverPath coverOpf0 (fun _ => false) = none
    ∧ coverDiscoverySpec coverOpf0 (fun _ => false) [] ≠ Opf.get_cover_path coverOpf0 := by
  refine ⟨rfl, rfl, rfl, by decide⟩

/-- C5 amended: `Opf::get_cover_path` checks, first match wins, only the
manifest cover-image item, then the metadata `cover` field (resolved as a
manifest id, else literal), then the other-metadata `cover` key, else none;
a manifest item flagged cover-image therefore wins over any differing cover
metadata entry.  `Epub::cover` is independent of the metadata store
altogether. -/
theorem cover_path_amended :
    (∀ (opf : Opf) (kv : String × ManifestItem),
      opf.manifest.find? (fun kv => kv.2.is_cover_image) = some kv →
      Opf.get_cover_path opf = some kv.2.href)
  ∧ (∀ (opf : Opf) (c : String),
      opf.manifest.find? (fun kv => kv.2.is_cover_image) = none →
      opf.metadata.cover = some c →
      Opf.get_cover_path opf = some (((assocGet opf.manifest c).map (·.href)).getD c))
  ∧ (∀ opf : Opf,
      opf.manifest.find? (fun kv => kv.2.is_cover_image) = none →
      opf.metadata.cover = none →
      assocGet opf.metadata.other "cover" = none →
      Opf.get_cover_path opf = none)
  ∧ (∀ (opf : Opf) (md' : Metadata) (extract : String → Bool),
      Epub.coverPath { opf with metadata := md' } extract = Epub.coverPath opf extract) := by
  refine ⟨?_, ?_, ?_, ?_⟩
  · intro opf kv h
    simp [Opf.get_cover_path, Opf.get_cover_image_path, h]
  · intro opf c h hc
    cases hg : assocGet opf.manifest c <;>
      simp [Opf.get_cover_path, Opf.get_cover_image_path, h, hc, hg]
  · intro opf h hc ho
    simp [Opf.get_cover_path, Opf.get_cover_image_path, h, hc, ho]
  · intro opf md' extract
    cases opf
    rfl

/-- A package whose manifest item is flagged cover-image while the metadata
carries a differing `cover` entry. -/
def coverOpf1 : Opf :=
  ⟨"3.0", Metadata.new.add_meta_name_based "cover" "other.jpg",
    [("c1", ⟨"c1", "cover1.png", "image/png", some "cover-image"⟩)], [], none⟩

/-- Witness for C5 (amended): the cover-image manifest item wins over the
differing `cover` metadata entry. -/
theorem cover_path_amended_witness :
    Opf.get_cover_path coverOpf1 = some "cover1.png"
    ∧ Metadata.cover coverOpf1.metadata = some "other.jpg" :=
  ⟨cover_path_amended.1 coverOpf1
      ("c1", ⟨"c1", "cover1.png", "image/png", some "cover-image"⟩) (by rfl),
    by rfl⟩

theorem foldr_max_succ (g gd : α → Nat) : ∀ (M : List α), M ≠ [] →
    (∀ p ∈ M, g p + 1 = gd p) →
    (M.map g).foldr Nat.max 0 + 1 = (M.map gd).foldr Nat.max 0
  | [], h, _ => absurd rfl h
  | [p], _, h => by
    have hp := h p (by simp)
    simp only [List.map_cons, List.map_nil, List.foldr_cons, List.foldr_nil]
    have h1 : Nat.max (g p) 0 = g p := Nat.max_zero _
    have h2 : Nat.max (gd p) 0 = gd p := Nat.max_zero _
    rw [h1, h2, hp]
  | p :: q :: M2, _, h => by
    have ihq := foldr_max_succ g gd (q :: M2) (by simp)
      (fun x hx => h x (List.mem_cons_of_mem p hx))
    have hp := h p (List.mem_cons_self p _)
    have e1 : ((p :: q :: M2).map g).foldr Nat.max 0
        = Nat.max (g p) (((q :: M2).map g).foldr Nat.max 0) := rfl
    have e2 : ((p :: q :: M2).map gd).foldr Nat.max 0
        = Nat.max (gd p) (((q :: M2).map gd).foldr Nat.max 0) := rfl
    rw [e1, e2]
    have hs : Nat.max (g p) (((q :: M2).map g).foldr Nat.max 0) + 1
        = Nat.max (g p + 1) (((q :: M2).map g).foldr Nat.max 0 + 1) :=
      (Nat.succ_max_succ _ _).symm
    rw [hs, hp, ihq]

/-- A navigation document with a single, flat navigation point: its
navPoint nesting depth (as the repository itself measures it, a leaf
counting 1) is 1. -/
def ncxSingle : Ncx :=
  ⟨"2005-1", none, NcxMetadata.new, none,
    ⟨[.mk "navpoint-1" 1 none ⟨"One"⟩ ⟨"chapter1.xhtml"⟩ []]⟩, none⟩

/-- C9 counterexample: for a single flat navigation point the nesting depth
is 1 but the tree statistics report a maximum depth of 0, because the roots
are assigned depth 0. -/
theorem toc_stats_depth_claim_false :
    (create_toc_tree_from_ncx ncxSingle).get_statistics.max_depth
      ≠ ncxSingle.nav_map.get_depth := by
  have h1 : (create_toc_tree_from_ncx ncxSingle).get_statistics.max_depth = 0 := by
    simp [create_toc_tree_from_ncx, TocTree.get_statistics, ncxSingle,
      convert_nav_point_def, get_max_depth_def]
  have h2 : ncxSingle.nav_map.get_depth = 1 := by
    simp [NavMap.get_depth, ncxSingle, get_depth_def]
  omega

/-- C9 amended: the maximum depth reported by the tree statistics is the
navPoints' maximum nesting depth minus one — the tree counts its roots at
depth 0, while a nesting chain of length D (a leaf counting 1, the
repository's own `get_depth` measure) has depth D. -/
theorem toc_stats_depth_amended :
    ∀ ncx : Ncx,
      (ncx.nav_map.nav_points ≠ [] →
        (create_toc_tree_from_ncx ncx).get_statistics.max_depth + 1
          = ncx.nav_map.get_depth)
      ∧ (ncx.nav_map.nav_points = [] →
        (create_toc_tree_from_ncx ncx).get_statistics.max_depth = 0
          ∧ ncx.nav_map.get_depth = 0) := by
  intro ncx
  have hstats : (create_toc_tree_from_ncx ncx).get_statistics.max_depth
      = (ncx.nav_map.nav_points.map
          (fun p => (convert_nav_point_to_toc_node p 0).get_max_depth)).foldr Nat.max 0 := by
    show ((ncx.nav_map.nav_points.map (fun p => convert_nav_point_to_toc_node p 0)).foldl
        (fun acc r => Nat.max acc r.get_max_depth) 0) = _
    rw [← List.foldl_map TocTreeNode.get_max_depth Nat.max, List.map_map, foldl_max_eq]
    exact Nat.zero_max _
  constructor
  · intro hne
    rw [hstats, NavMap.get_depth]
    exact foldr_max_succ _ _ ncx.nav_map.nav_points hne
      (fun p _ => by have hc := convert_max_depth_succ p 0; omega)
  · intro hz
    refine ⟨?_, ?_⟩
    · rw [hstats, hz]
      rfl
    · rw [NavMap.get_depth, hz]
      rfl

/-- Witness for C9 (amended) at the single-point document. -/
theorem toc_stats_depth_amended_witness :
    (create_toc_tree_from_ncx ncxSingle).get_statistics.max_depth + 1
      = ncxSingle.nav_map.get_depth :=
  (toc_stats_depth_amended ncxSingle).1 (by simp [ncxSingle])
